import Mathlib

/-!
Shallow embedding, in Lean 4, of the highlight-selection pipeline
(`skills/video-edit/scripts/highlight.py`) and the SRT conversion helpers
(`skills/video-edit/scripts/srt_utils.py`).

Modelling conventions:
* Python `float` values are modelled as exact rationals (`ℚ`).
* Python `int` is `Int` (arbitrary precision in both languages); values that
  are provably non-negative are sometimes held as `Nat`.
* Python dictionaries produced by `json.loads` are modelled by the inductive
  type `PyVal` below (ints, floats, strings, lists, string-keyed dicts).
* Functions that can raise return `Except PyErr _`; the `PyErr` constructor
  records which Python exception class would be raised.
* File input is modelled by the list of lines of the file (each line already
  stripped of its trailing newline, exactly what the `line.rstrip` loop in
  `parse_srt` produces); file output is modelled by the string written.
-/

/-- Python exception classes that the embedded code can raise. -/
inductive PyErr where
  | valueError (msg : String)
  | typeError (msg : String)
  | keyError (msg : String)
  | runtimeError (msg : String)
deriving Repr, DecidableEq

/-- A JSON-like Python value: the payloads that `extract_json` can hand to
`select_ranges` and that `doubao_to_srt` receives. -/
inductive PyVal where
  | vint (n : Int)
  | vfloat (q : ℚ)
  | vstr (s : String)
  | vlist (l : List PyVal)
  | vdict (d : List (String × PyVal))

namespace PyVal

/-- `d.get(k)` on a Python dict: the value of the LAST binding of `k`
(later bindings shadow earlier ones when a dict literal repeats a key). -/
def dictGet (d : List (String × PyVal)) (k : String) : Option PyVal :=
  (d.reverse.find? (fun p => p.fst = k)).map Prod.snd

/-- `d.get(k, default)` on a Python dict. -/
def dictGetD (d : List (String × PyVal)) (k : String) (v : PyVal) : PyVal :=
  (dictGet d k).getD v

/-- `isinstance(v, int)` together with the numeric value (Python ints). -/
def asInt : PyVal → Option Int
  | vint n => some n
  | _ => none

end PyVal

/-- Characters of the decimal rendering of a natural number, most significant
digit first (what Python's `d` format code prints for non-negative ints). -/
def natDigits (n : ℕ) : List Char :=
  if h : n < 10 then [Char.ofNat (48 + n)]
  else natDigits (n / 10) ++ [Char.ofNat (48 + n % 10)]
  decreasing_by exact Nat.div_lt_self (by omega) (by omega)

/-- Python's `f"{n:0wd}"` for a non-negative int: decimal digits left-padded
with zeros to a minimum width `w`. -/
def padNum (w : ℕ) (n : ℕ) : List Char :=
  let ds := natDigits n
  List.replicate (w - ds.length) '0' ++ ds

namespace highlight

/-- `Segment` dataclass of `highlight.py`. -/
structure Segment where
  id : Int
  start : ℚ
  «end» : ℚ
  text : String
deriving Repr, DecidableEq

/-- One of the range dicts built by `select_ranges` (all four keys are always
present, so a structure is a faithful model). -/
structure Range where
  start : ℚ
  «end» : ℚ
  score : ℚ
  reason : String
deriving Repr, DecidableEq

/-- Python `round` (round half to even) on an exact rational. -/
def pyRound (q : ℚ) : ℤ :=
  let f := ⌊q⌋
  let r := q - (f : ℚ)
  if r < 1/2 then f
  else if 1/2 < r then f + 1
  else if Even f then f else f + 1

/-- A character matched by `\d` in the timestamp regexes (ASCII digit),
with its value. -/
def readDigit (c : Char) : Option ℕ :=
  if 48 ≤ c.toNat ∧ c.toNat ≤ 57 then some (c.toNat - 48) else none

/-- Read exactly two digits (`\d{2}`). -/
def read2 : List Char → Option (ℕ × List Char)
  | a :: b :: rest =>
    match readDigit a, readDigit b with
    | some x, some y => some (10 * x + y, rest)
    | _, _ => none
  | _ => none

/-- Read exactly three digits (`\d{3}`). -/
def read3 : List Char → Option (ℕ × List Char)
  | a :: b :: c :: rest =>
    match readDigit a, readDigit b, readDigit c with
    | some x, some y, some z => some (100 * x + 10 * y + z, rest)
    | _, _, _ => none
  | _ => none

/-- Expect one literal character. -/
def readChar (c : Char) : List Char → Option (List Char)
  | a :: rest => if a = c then some rest else none
  | [] => none

/-- Whitespace as stripped by Python's `str.strip` (ASCII subset). -/
def isPySpace (c : Char) : Bool :=
  c = ' ' ∨ c = '\t' ∨ c = '\n' ∨ c = '\r' ∨ c = '\x0b' ∨ c = '\x0c'

/-- Python `str.strip()` on the character list of a string. -/
def pyStrip (cs : List Char) : List Char :=
  (cs.dropWhile isPySpace).reverse.dropWhile isPySpace |>.reverse

/-- Match `TIME_RE` (`\d{2}:\d{2}:\d{2}[,.]\d{3}`) at the head of the input,
returning the four captured fields and the rest. -/
def matchTime (cs : List Char) : Option ((ℕ × ℕ × ℕ × ℕ) × List Char) := do
  let (h, cs) ← read2 cs
  let cs ← readChar ':' cs
  let (m, cs) ← read2 cs
  let cs ← readChar ':' cs
  let (s, cs) ← read2 cs
  match cs with
  | sep :: cs =>
    if sep = ',' ∨ sep = '.' then do
      let (ms, cs) ← read3 cs
      some ((h, m, s, ms), cs)
    else none
  | [] => none

/-- `parse_timestamp` of `highlight.py`: strip, prefix-match `TIME_RE`, and
return `h*3600 + m*60 + s + ms/1000` seconds.  `none` models the raised
`ValueError`. -/
def parse_timestamp (value : String) : Option ℚ :=
  match matchTime (pyStrip value.data) with
  | some ((h, m, s, ms), _) =>
    some ((h : ℚ) * 3600 + (m : ℚ) * 60 + (s : ℚ) + (ms : ℚ) / 1000)
  | none => none

/-- Character list `HH:MM:SS.mmm` assembled by the f-string in
`format_timestamp`. -/
def timeChars (h m s ms : ℕ) : List Char :=
  padNum 2 h ++ ':' :: padNum 2 m ++ ':' :: padNum 2 s ++ '.' :: padNum 3 ms

/-- `format_timestamp` of `highlight.py`.  After the negative clamp the value
is non-negative, so Python's truncating `int(seconds)` coincides with the
floor used here. -/
def format_timestamp (seconds : ℚ) : String :=
  let s := if seconds < 0 then 0 else seconds
  let ms := (pyRound ((s - (⌊s⌋ : ℚ)) * 1000)).toNat
  let total := (⌊s⌋).toNat
  let h := total / 3600
  let m := total % 3600 / 60
  let sec := total % 60
  String.mk (timeChars h m sec ms)

/-- `format_timestamp_srt`: replace the (single-character) `.` by `,`. -/
def format_timestamp_srt (seconds : ℚ) : String :=
  String.mk ((format_timestamp seconds).data.map fun c => if c = '.' then ',' else c)

/-- Digit characters collected by `spanDigits`, as a number (base 10, most
significant first). -/
def digitsVal (ds : List ℕ) : ℕ := ds.foldl (fun a d => 10 * a + d) 0

/-- Longest digit prefix of a character list, with the remainder. -/
def spanDigits : List Char → (List ℕ × List Char)
  | [] => ([], [])
  | c :: rest =>
    match readDigit c with
    | some d => let (ds, r) := spanDigits rest; (d :: ds, r)
    | none => ([], c :: rest)

/-- Python `float(s)` on a string: optional sign and a plain decimal literal
(`digits`, `digits.digits`, `.digits`, `digits.`), surrounding whitespace
stripped.  Exponent forms and the named constants are not modelled; no claim
exercises them. -/
def strToFloat (s : String) : Option ℚ :=
  let cs := pyStrip s.data
  let (sign, cs) : ℚ × List Char :=
    match cs with
    | '-' :: r => (-1, r)
    | '+' :: r => (1, r)
    | _ => (1, cs)
  let (ip, cs) := spanDigits cs
  match cs with
  | [] => if ip.isEmpty then none else some (sign * (digitsVal ip : ℚ))
  | '.' :: rest =>
    let (fp, r) := spanDigits rest
    if r.isEmpty ∧ ¬(ip.isEmpty ∧ fp.isEmpty) then
      some (sign * ((digitsVal ip : ℚ) + (digitsVal fp : ℚ) / (10 : ℚ) ^ fp.length))
    else none
  | _ => none

/-- Python `float(v)`: numbers pass through, strings are parsed
(`ValueError` on failure), lists and dicts raise `TypeError`. -/
def pyFloat : PyVal → Except PyErr ℚ
  | .vint n => .ok (n : ℚ)
  | .vfloat q => .ok q
  | .vstr s =>
    match strToFloat s with
    | some q => .ok q
    | none => .error (.valueError ("could not convert string to float: " ++ s))
  | .vlist _ => .error (.typeError "float() argument must be a string or a real number")
  | .vdict _ => .error (.typeError "float() argument must be a string or a real number")

/-- Python `str(v)`.  Strings and ints are rendered exactly; the rendering of
floats, lists and dicts is simplified (no claim depends on it: `str` is only
applied to the free-form `reason` field). -/
def pyStr : PyVal → String
  | .vstr s => s
  | .vint n => toString n
  | .vfloat q => toString q
  | .vlist _ => "[...]"
  | .vdict _ => "{...}"

/-- The `by_id` dict comprehension of `select_ranges`: maps a segment id to
the LAST segment carrying it (later comprehension entries overwrite). -/
def by_id (segments : List Segment) (k : Int) : Option Segment :=
  segments.reverse.find? (fun s => s.id = k)

/-- One iteration of the `for item in highlights` loop of `select_ranges`:
`ok none` models `continue`, `ok (some r)` models `ranges.append(r)`, and
`error` models an exception escaping the loop (raised by `float()`). -/
def processItem (byId : Int → Option Segment) (item : PyVal) : Except PyErr (Option Range) :=
  match item with
  | .vdict d =>
    match (PyVal.dictGet d "start_id").bind PyVal.asInt,
          (PyVal.dictGet d "end_id").bind PyVal.asInt with
    | some a, some b =>
      match byId a, byId b with
      | some sa, some sb =>
        let (sseg, eseg) := if b < a then (sb, sa) else (sa, sb)
        do
          let pb ← pyFloat (PyVal.dictGetD d "pad_before" (.vint 0))
          let pa ← pyFloat (PyVal.dictGetD d "pad_after" (.vint 0))
          let sc ← pyFloat (PyVal.dictGetD d "score" (.vint 0))
          .ok (some { start := sseg.start - pb
                      «end» := eseg.«end» + pa
                      score := sc
                      reason := pyStr (PyVal.dictGetD d "reason" (.vstr "")) })
      | _, _ => .ok none
    | _, _ => .ok none
  | _ => .ok none

/-- The whole `for item in highlights` loop, collecting appended ranges in
order and propagating the first exception. -/
def selectLoop (byId : Int → Option Segment) : List PyVal → Except PyErr (List Range)
  | [] => .ok []
  | item :: rest => do
    let r ← processItem byId item
    let rs ← selectLoop byId rest
    .ok (r.toList ++ rs)

/-- `select_ranges` of `highlight.py`. -/
def select_ranges (data : List (String × PyVal)) (segments : List Segment) :
    Except PyErr (List Range) :=
  match PyVal.dictGet data "highlights" with
  | some (.vlist hl) =>
    if hl.isEmpty then .error (.valueError "LLM output missing highlights list.")
    else do
      let rs ← selectLoop (by_id segments) hl
      if rs.isEmpty then .error (.valueError "No valid highlight ranges produced.")
      else .ok rs
  | _ => .error (.valueError "LLM output missing highlights list.")

/-- The in-place mutations `merge_ranges` performs on `merged[-1]` when the
next item overlaps it: extend the end, keep the larger score, keep the
existing reason or adopt the item's non-empty one. -/
def mergedRange (last item : Range) : Range :=
  { last with
    «end» := max last.«end» item.«end»
    score := max last.score item.score
    reason :=
      if item.reason ≠ "" then
        (if last.reason ≠ "" then last.reason else item.reason)
      else last.reason }

/-- The merging loop of `merge_ranges`: `last` is `merged[-1]` (mutated in
place by the source), `rest` the items still to visit. -/
def mergeInto (last : Range) : List Range → List Range
  | [] => [last]
  | item :: rest =>
    if item.start ≤ last.«end» then mergeInto (mergedRange last item) rest
    else last :: mergeInto item rest

/-- `merge_ranges` of `highlight.py`: stable sort by `start` (Python
`sorted`), then fold overlapping neighbours together. -/
def merge_ranges (ranges : List Range) : List Range :=
  match ranges.mergeSort (fun a b => decide (a.start ≤ b.start)) with
  | [] => []
  | r :: rest => mergeInto r rest

/-- Python `str.isdigit()` (ASCII model): non-empty and all digits. -/
def pyIsDigit (cs : List Char) : Bool :=
  !cs.isEmpty && cs.all (fun c => (readDigit c).isSome)

/-- `TIME_RE` match at the head of the input returning the matched substring
(the regex's whole match, used as the captured `start`/`end` groups of
`SRT_RANGE_RE`) and the remainder. -/
def matchTimeStr (cs : List Char) : Option (List Char × List Char) :=
  match matchTime cs with
  | some (_, rest) => some (cs.take (cs.length - rest.length), rest)
  | none => none

/-- `SRT_RANGE_RE` match anchored at the head of the input: timestamp,
`\s*`, the arrow, `\s*`, timestamp; returns the two captured timestamps. -/
def matchRangeAt (cs : List Char) : Option (List Char × List Char) := do
  let (s, cs) ← matchTimeStr cs
  let cs := cs.dropWhile isPySpace
  let cs ← readChar '-' cs
  let cs ← readChar '-' cs
  let cs ← readChar '>' cs
  let cs := cs.dropWhile isPySpace
  let (e, _) ← matchTimeStr cs
  some (s, e)

/-- `SRT_RANGE_RE.search`: the anchored match attempted at each position in
turn. -/
def searchRange : List Char → Option (List Char × List Char)
  | [] => none
  | c :: rest => (matchRangeAt (c :: rest)).orElse (fun _ => searchRange rest)

/-- `SRT_RANGE_RE.search(line)` used as a truth value. -/
def hasRange (line : String) : Bool := (searchRange line.data).isSome

/-- `parse_srt_block` of `highlight.py`. -/
def parse_srt_block (lines : List String) : Option Segment :=
  match lines with
  | l0 :: l1 :: _ =>
    let time_line := if pyIsDigit (pyStrip l0.data) then l1 else l0
    match searchRange time_line.data with
    | some (sCs, eCs) =>
      match parse_timestamp (String.mk sCs), parse_timestamp (String.mk eCs) with
      | some s, some e =>
        let text_lines :=
          (lines.filter fun l => !hasRange l && !pyIsDigit (pyStrip l.data)).map
            fun l => String.mk (pyStrip l.data)
        let text := String.intercalate " " (text_lines.filter fun t => t ≠ "")
        some { id := 0, start := s, «end» := e, text := text }
      | _, _ => none
    | none => none
  | _ => none

/-- The line loop of `parse_srt`: `segs` is the accumulated output,
`block` the lines of the block being collected. -/
def parseLoop (segs : List Segment) (block : List String) :
    List String → List Segment
  | [] => if block.isEmpty then segs else segs ++ (parse_srt_block block).toList
  | line :: rest =>
    if (pyStrip line.data).isEmpty then
      if block.isEmpty then parseLoop segs [] rest
      else parseLoop (segs ++ (parse_srt_block block).toList) [] rest
    else parseLoop segs (block ++ [line]) rest

/-- `parse_srt` of `highlight.py`, taking the file as its list of lines. -/
def parse_srt (lines : List String) : List Segment :=
  parseLoop [] [] lines

/-- Blank-line-separated blocks of the file, in file order (`block` is a
pending partial block).  Spec-side description used to state what
`parse_srt` returns. -/
def blocksAux (block : List String) : List String → List (List String)
  | [] => if block.isEmpty then [] else [block]
  | line :: rest =>
    if (pyStrip line.data).isEmpty then
      if block.isEmpty then blocksAux [] rest
      else block :: blocksAux [] rest
    else blocksAux (block ++ [line]) rest

/-- The non-empty blocks of a file's lines, in file order. -/
def blocksOf (lines : List String) : List (List String) :=
  blocksAux [] lines

/-- The body of the `for idx, seg in enumerate(segments, start=1)` loop of
`write_srt`: the text written for one segment (the three `handle.write`
calls concatenated).  The translations dict is modelled as a partial map
from segment id to translated text; `translations.get(seg.id, "")` is
`(m seg.id).getD ""`. -/
def writeBlock (idx : ℕ) (seg : Segment) (translations : Option (Int → Option String)) :
    String :=
  let text0 := String.mk (pyStrip seg.text.data)
  let text :=
    match translations with
    | none => text0
    | some m =>
      let translated := (m seg.id).getD ""
      if translated ≠ "" then text0 ++ "\n" ++ translated else text0
  toString idx ++ "\n"
    ++ format_timestamp_srt seg.start ++ " --> " ++ format_timestamp_srt seg.«end» ++ "\n"
    ++ text ++ "\n\n"

/-- `write_srt` of `highlight.py`, modelled as the string written to the
output file. -/
def write_srt (segments : List Segment) (translations : Option (Int → Option String)) :
    String :=
  String.join (segments.enum.map fun p => writeBlock (p.1 + 1) p.2 translations)

/-- The run-directory name template of `create_run_dir`. -/
def runDirName (stamp : String) (pid : String) (token : String) : String :=
  "openclaw-video-edit-" ++ stamp ++ "-" ++ pid ++ "-" ++ token

/-- The retry loop of `create_run_dir`.  `dirExists` is the state of the
filesystem (`os.makedirs(..., exist_ok=False)` fails exactly on existing
paths), `names i` the name generated on attempt `i` (timestamp, pid and
random token are oracles: attempt `i` evaluates them freshly), `fuel` the
remaining attempts and `i` the index of the current attempt. -/
def createAttempts (dirExists : String → Bool) (names : ℕ → String) :
    ℕ → ℕ → Except PyErr String
  | 0, _ => .error (.runtimeError "Unable to create a unique run directory.")
  | fuel + 1, i =>
    if dirExists (names i) then createAttempts dirExists names fuel (i + 1)
    else .ok (names i)

/-- `create_run_dir` of `highlight.py`: five attempts, each with a fresh
timestamp/pid/token name. -/
def create_run_dir (dirExists : String → Bool)
    (stamp : ℕ → String) (pid : String) (token : ℕ → String) :
    Except PyErr String :=
  createAttempts dirExists (fun i => runDirName (stamp i) pid (token i)) 5 0

/-- The `-ss`/`-t` arguments `clip_segments` computes for one range:
`start = max(0, item["start"])`, `end = max(start + 0.1, item["end"])`,
`duration = max(0.1, end - start)`. -/
def clipParams (item : Range) : ℚ × ℚ :=
  let s := max 0 item.start
  let e := max (s + 1/10) item.«end»
  let d := max (1/10) (e - s)
  (s, d)

/-- The cut parameters `clip_segments` passes to the media tool, one pair
(start, duration) per input range, in order. -/
def clip_segments (ranges : List Range) : List (ℚ × ℚ) :=
  ranges.map clipParams

/-- The clamping loop of `main` (lines 803-806): when the probed video
duration is known, each range's bounds are clamped by
`max(0.0, min(v, duration))`. -/
def clampRange (duration : ℚ) (r : Range) : Range :=
  { r with
    start := max 0 (min r.start duration)
    «end» := max 0 (min r.«end» duration) }

/-! Specification-side descriptions, used to state the claims about the
definitions above. -/

/-- `x` lies in the union of the closed intervals of a range list. -/
def covers (l : List Range) (x : ℚ) : Prop :=
  ∃ r ∈ l, r.start ≤ x ∧ x ≤ r.«end»

/-- A highlight item passes the id validation of `select_ranges`: it is a
dict, its `start_id` and `end_id` are ints, and both are ids of known
segments. -/
def itemPasses (byId : Int → Option Segment) (item : PyVal) : Bool :=
  match item with
  | .vdict d =>
    match (PyVal.dictGet d "start_id").bind PyVal.asInt,
          (PyVal.dictGet d "end_id").bind PyVal.asInt with
    | some a, some b => (byId a).isSome && (byId b).isSome
    | _, _ => false
  | _ => false

/-- The `float()` conversions `select_ranges` performs on a non-skipped item
all succeed. -/
def itemConverts (item : PyVal) : Bool :=
  match item with
  | .vdict d =>
    (pyFloat (PyVal.dictGetD d "pad_before" (.vint 0))).isOk
      && (pyFloat (PyVal.dictGetD d "pad_after" (.vint 0))).isOk
      && (pyFloat (PyVal.dictGetD d "score" (.vint 0))).isOk
  | _ => true

/-- The range a valid highlight item produces (spec-side description of one
loop iteration of `select_ranges`): `none` when the item is skipped or a
conversion fails. -/
def itemRange (byId : Int → Option Segment) (item : PyVal) : Option Range :=
  match item with
  | .vdict d =>
    match (PyVal.dictGet d "start_id").bind PyVal.asInt,
          (PyVal.dictGet d "end_id").bind PyVal.asInt with
    | some a, some b =>
      match byId a, byId b with
      | some sa, some sb =>
        let (sseg, eseg) := if b < a then (sb, sa) else (sa, sb)
        match (pyFloat (PyVal.dictGetD d "pad_before" (.vint 0))).toOption,
              (pyFloat (PyVal.dictGetD d "pad_after" (.vint 0))).toOption,
              (pyFloat (PyVal.dictGetD d "score" (.vint 0))).toOption with
        | some pb, some pa, some sc =>
          some { start := sseg.start - pb
                 «end» := eseg.«end» + pa
                 score := sc
                 reason := pyStr (PyVal.dictGetD d "reason" (.vstr "")) }
        | _, _, _ => none
      | _, _ => none
    | _, _ => none
  | _ => none

/-- Spec-side description of one SRT block written by `write_srt`, following
the claim's wording: an index line, a timing line that does not depend on
the translations, and the stripped text with the translated text appended as
a second line exactly when the mapping contains a non-empty translation for
the segment's id. -/
def claimBlock (idx : ℕ) (seg : Segment) (translations : Option (Int → Option String)) :
    String :=
  let timing := format_timestamp_srt seg.start ++ " --> " ++ format_timestamp_srt seg.«end»
  let original := String.mk (pyStrip seg.text.data)
  let text :=
    match translations with
    | none => original
    | some m =>
      match m seg.id with
      | some t => if t = "" then original else original ++ "\n" ++ t
      | none => original
  toString idx ++ "\n" ++ timing ++ "\n" ++ text ++ "\n\n"

/-- Spec-side description of the whole SRT file written by `write_srt`: one
block per segment in list order, numbered consecutively starting from
`idx`. -/
def writeSrtClaim (idx : ℕ) (segments : List Segment)
    (translations : Option (Int → Option String)) : String :=
  match segments with
  | [] => ""
  | seg :: rest => claimBlock idx seg translations ++ writeSrtClaim (idx + 1) rest translations

end highlight

namespace srt_utils

/-- Python `f"{n:0wd}"` for an arbitrary int: a sign followed by digits,
zero-padded so that the whole field (sign included) reaches width `w`. -/
def padInt (w : ℕ) (n : ℤ) : List Char :=
  if n < 0 then '-' :: padNum (w - 1) n.natAbs else padNum w n.toNat

/-- `SRTSegment` dataclass of `srt_utils.py`.  The `text` field holds the
raw value taken from the utterance dict (rendered by the f-string of
`to_srt`). -/
structure SRTSegment where
  index : ℤ
  start_ms : ℤ
  end_ms : ℤ
  text : String
deriving Repr, DecidableEq

/-- `SRTSegment._format_time`: milliseconds to `HH:MM:SS,mmm`.  Python's
`//` and `%` are floor division and floor remainder, i.e. `Int.fdiv` and
`Int.fmod`. -/
def format_time (ms : ℤ) : String :=
  let hours := Int.fdiv ms 3600000
  let ms1 := Int.fmod ms 3600000
  let minutes := Int.fdiv ms1 60000
  let ms2 := Int.fmod ms1 60000
  let seconds := Int.fdiv ms2 1000
  let milliseconds := Int.fmod ms2 1000
  String.mk (padInt 2 hours ++ ':' :: padInt 2 minutes ++ ':' :: padInt 2 seconds
    ++ ',' :: padInt 3 milliseconds)

/-- `SRTSegment.to_srt`. -/
def to_srt (seg : SRTSegment) : String :=
  toString seg.index ++ "\n" ++ format_time seg.start_ms ++ " --> "
    ++ format_time seg.end_ms ++ "\n" ++ seg.text ++ "\n"

/-- `u[k]` on a Python value with a string key: dict lookup (`KeyError` when
absent); subscripting any non-dict value in scope here raises `TypeError`. -/
def pyGetItem (u : PyVal) (k : String) : Except PyErr PyVal :=
  match u with
  | .vdict d =>
    match PyVal.dictGet d k with
    | some v => .ok v
    | none => .error (.keyError k)
  | _ => .error (.typeError "value is not subscriptable with a string key")

/-- `iter(v)` for the values `doubao_to_srt` can meet: lists yield their
items, strings their characters, dicts their keys; ints and floats raise
`TypeError`. -/
def pyIter : PyVal → Except PyErr (List PyVal)
  | .vlist l => .ok l
  | .vstr s => .ok (s.data.map fun c => .vstr (String.mk [c]))
  | .vdict d => .ok (d.map fun p => .vstr p.fst)
  | .vint _ => .error (.typeError "int object is not iterable")
  | .vfloat _ => .error (.typeError "float object is not iterable")

/-- The `for idx, utterance in enumerate(..., start=1)` loop of
`doubao_to_srt`.  The segment fields are read in source order
(`start_time`, `end_time`, `text`); a non-int time value makes the whole
conversion raise (in the source the raise happens when `_format_time`
formats the value, here at extraction — either way no string is returned). -/
def utterancesToSegments (i : ℤ) : List PyVal → Except PyErr (List SRTSegment)
  | [] => .ok []
  | u :: rest => do
    let stv ← pyGetItem u "start_time"
    let st ← match stv.asInt with
      | some n => Except.ok n
      | none => Except.error (.typeError "unsupported start_time value")
    let env ← pyGetItem u "end_time"
    let en ← match env.asInt with
      | some n => Except.ok n
      | none => Except.error (.typeError "unsupported end_time value")
    let tv ← pyGetItem u "text"
    let segs ← utterancesToSegments (i + 1) rest
    .ok ({ index := i, start_ms := st, end_ms := en, text := highlight.pyStr tv } :: segs)

/-- `doubao_to_srt` of `srt_utils.py`. -/
def doubao_to_srt (doubao_result : List (String × PyVal)) : Except PyErr String :=
  match PyVal.dictGet doubao_result "utterances" with
  | none => .ok ""
  | some v => do
    let us ← pyIter v
    let segs ← utterancesToSegments 1 us
    .ok (String.intercalate "\n" (segs.map to_srt))

/-- Spec-side description of a well-formed utterance: a dict with int
`start_time` and `end_time` and a `text` key. -/
def utterFields (u : PyVal) : Option (Int × Int × PyVal) :=
  match u with
  | .vdict du =>
    match (PyVal.dictGet du "start_time").bind PyVal.asInt,
          (PyVal.dictGet du "end_time").bind PyVal.asInt,
          PyVal.dictGet du "text" with
    | some st, some en, some t => some (st, en, t)
    | _, _, _ => none
  | _ => none

/-- Spec-side description of the segments `doubao_to_srt` builds from
well-formed utterances: indexed consecutively from `i`, times taken from the
utterance fields, in input order. -/
def specSegs (i : ℤ) : List (Int × Int × PyVal) → List SRTSegment
  | [] => []
  | (st, en, t) :: rest =>
    { index := i, start_ms := st, end_ms := en, text := highlight.pyStr t }
      :: specSegs (i + 1) rest

end srt_utils

/-! Helper lemmas about decimal digit rendering. -/

theorem readDigit_ofNat {d : ℕ} (hd : d < 10) :
    highlight.readDigit (Char.ofNat (48 + d)) = some d := by
  interval_cases d <;> decide

theorem natDigits_of_lt {n : ℕ} (h : n < 10) : natDigits n = [Char.ofNat (48 + n)] := by
  rw [natDigits]
  simp [h]

theorem natDigits_two {n : ℕ} (h10 : 10 ≤ n) (h : n < 100) :
    natDigits n = [Char.ofNat (48 + n / 10), Char.ofNat (48 + n % 10)] := by
  rw [natDigits]
  rw [dif_neg (by omega)]
  rw [natDigits_of_lt (by omega)]
  rfl

theorem padNum_two {n : ℕ} (h : n < 100) :
    padNum 2 n = [Char.ofNat (48 + n / 10), Char.ofNat (48 + n % 10)] := by
  by_cases h1 : n < 10
  · have h0 : n / 10 = 0 := Nat.div_eq_of_lt h1
    have hm : n % 10 = n := Nat.mod_eq_of_lt h1
    rw [padNum, natDigits_of_lt h1]
    simp [h0, hm, List.replicate]
  · rw [padNum, natDigits_two (by omega) h]
    simp [List.replicate]

theorem padNum_three {n : ℕ} (h : n < 1000) :
    padNum 3 n = [Char.ofNat (48 + n / 100), Char.ofNat (48 + n / 10 % 10),
      Char.ofNat (48 + n % 10)] := by
  by_cases h1 : n < 10
  · have h100 : n / 100 = 0 := Nat.div_eq_of_lt (by omega)
    have h10 : n / 10 = 0 := Nat.div_eq_of_lt h1
    rw [padNum, natDigits_of_lt h1]
    simp [h100, h10, Nat.mod_eq_of_lt h1, List.replicate]
  · by_cases h2 : n < 100
    · have h100 : n / 100 = 0 := Nat.div_eq_of_lt h2
      have hd : n / 10 % 10 = n / 10 := Nat.mod_eq_of_lt (by omega)
      rw [padNum, natDigits_two (by omega) h2]
      simp [h100, hd, List.replicate]
    · rw [padNum, natDigits]
      rw [dif_neg (by omega)]
      rw [natDigits_two (by omega) (by omega)]
      have : n / 10 / 10 = n / 100 := by omega
      simp [this, List.replicate]

theorem read2_padNum {n : ℕ} (h : n < 100) (rest : List Char) :
    highlight.read2 (padNum 2 n ++ rest) = some (n, rest) := by
  rw [padNum_two h]
  simp only [List.cons_append, List.nil_append, highlight.read2,
    readDigit_ofNat (Nat.div_lt_of_lt_mul (by omega) : n / 10 < 10),
    readDigit_ofNat (Nat.mod_lt n (by omega) : n % 10 < 10)]
  have e : 10 * (n / 10) + n % 10 = n := by omega
  rw [e]

theorem read3_padNum {n : ℕ} (h : n < 1000) (rest : List Char) :
    highlight.read3 (padNum 3 n ++ rest) = some (n, rest) := by
  rw [padNum_three h]
  simp only [List.cons_append, List.nil_append, highlight.read3,
    readDigit_ofNat (show n / 100 < 10 by omega),
    readDigit_ofNat (show n / 10 % 10 < 10 from Nat.mod_lt _ (by omega)),
    readDigit_ofNat (Nat.mod_lt n (by omega) : n % 10 < 10)]
  have e : 100 * (n / 100) + 10 * (n / 10 % 10) + n % 10 = n := by omega
  rw [e]

/-- Int floor-division of two natural casts is the natural division. -/
theorem int_fdiv_natCast (a b : ℕ) : Int.fdiv (a : ℤ) (b : ℤ) = ((a / b : ℕ) : ℤ) := by
  rw [Int.fdiv_eq_ediv _ (by positivity)]
  exact (Int.natCast_div ..).symm

/-- Int floor-remainder of two natural casts is the natural remainder. -/
theorem int_fmod_natCast (a b : ℕ) : Int.fmod (a : ℤ) (b : ℤ) = ((a % b : ℕ) : ℤ) := by
  rw [Int.fmod_eq_emod _ (by positivity)]
  exact (Int.natCast_mod ..).symm

theorem padInt_natCast (w : ℕ) (n : ℕ) : srt_utils.padInt w (n : ℤ) = padNum w n := by
  rw [srt_utils.padInt, if_neg (by omega)]
  simp

/-- C9: `SRTSegment._format_time` renders a non-negative millisecond count as
`HH:MM:SS,mmm` with minutes and seconds below 60 and milliseconds below 1000,
and the fields decode back to exactly the input:
`hours*3600000 + minutes*60000 + seconds*1000 + milliseconds = ms`. -/
theorem format_time_fields (ms : ℕ) :
    ∃ h m s r : ℕ,
      srt_utils.format_time (ms : ℤ) =
        String.mk (padNum 2 h ++ ':' :: padNum 2 m ++ ':' :: padNum 2 s ++ ',' :: padNum 3 r) ∧
      m < 60 ∧ s < 60 ∧ r < 1000 ∧
      h * 3600000 + m * 60000 + s * 1000 + r = ms := by
  refine ⟨ms / 3600000, ms % 3600000 / 60000, ms % 3600000 % 60000 / 1000,
    ms % 3600000 % 60000 % 1000, ?_, by omega, by omega, by omega, by omega⟩
  rw [srt_utils.format_time]
  have e1 : (3600000 : ℤ) = ((3600000 : ℕ) : ℤ) := rfl
  have e2 : (60000 : ℤ) = ((60000 : ℕ) : ℤ) := rfl
  have e3 : (1000 : ℤ) = ((1000 : ℕ) : ℤ) := rfl
  rw [e1, int_fdiv_natCast, int_fmod_natCast, e2, int_fdiv_natCast, int_fmod_natCast,
    e3, int_fdiv_natCast, int_fmod_natCast, padInt_natCast, padInt_natCast,
    padInt_natCast, padInt_natCast]

open highlight in
/-- C8: every cut `clip_segments` hands to the media tool starts at
`max(0, start)` and lasts `max(0.1, end - start')` seconds, hence starts at a
non-negative time and lasts at least 0.1 seconds; and the clamping loop of
`main` maps every range bound into `[0, duration]` when the source duration
is known (and non-negative). -/
theorem clip_segments_bounds (ranges : List Range) (dur : ℚ) (r : Range)
    (hd : 0 ≤ dur) :
    clip_segments ranges =
      ranges.map (fun item => (max 0 item.start, max (1/10) (item.«end» - max 0 item.start))) ∧
    (∀ p ∈ clip_segments ranges, 0 ≤ p.1 ∧ 1/10 ≤ p.2) ∧
    (0 ≤ (clampRange dur r).start ∧ (clampRange dur r).start ≤ dur ∧
      0 ≤ (clampRange dur r).«end» ∧ (clampRange dur r).«end» ≤ dur) := by
  have key : ∀ a e : ℚ, max (1/10) (max (a + 1/10) e - a) = max (1/10) (e - a) := by
    intro a e
    rcases le_total e (a + 1/10) with h | h
    · have ha : a + 1/10 - a = 1/10 := by ring
      rw [max_eq_left h, ha, max_self, max_eq_left (by linarith)]
    · rw [max_eq_right h]
  have hparams : ∀ item : Range,
      clipParams item = (max 0 item.start, max (1/10) (item.«end» - max 0 item.start)) := by
    intro item
    rw [clipParams]
    rw [key (max 0 item.start) item.«end»]
  refine ⟨?_, ?_, ?_⟩
  · rw [clip_segments]
    exact List.map_congr_left fun item _ => hparams item
  · intro p hp
    rw [clip_segments] at hp
    obtain ⟨item, _, rfl⟩ := List.mem_map.mp hp
    rw [hparams]
    exact ⟨le_max_left _ _, le_max_left _ _⟩
  · refine ⟨le_max_left _ _, ?_, le_max_left _ _, ?_⟩
    · exact max_le hd (min_le_right _ _)
    · exact max_le hd (min_le_right _ _)

/-- Witness for `clip_segments_bounds` at a concrete input. -/
theorem clip_segments_bounds_witness :
    (0 : ℚ) ≤ 30 ∧
    (highlight.clip_segments [⟨-5, 3, 0, ""⟩] =
        [⟨-5, 3, 0, ""⟩].map (fun item : highlight.Range =>
          (max 0 item.start, max (1/10) (item.«end» - max 0 item.start))) ∧
      (∀ p ∈ highlight.clip_segments [⟨-5, 3, 0, ""⟩], 0 ≤ p.1 ∧ 1/10 ≤ p.2) ∧
      (0 ≤ (highlight.clampRange 30 ⟨-5, 40, 0, ""⟩).start ∧
        (highlight.clampRange 30 ⟨-5, 40, 0, ""⟩).start ≤ 30 ∧
        0 ≤ (highlight.clampRange 30 ⟨-5, 40, 0, ""⟩).«end» ∧
        (highlight.clampRange 30 ⟨-5, 40, 0, ""⟩).«end» ≤ 30)) :=
  ⟨by norm_num, clip_segments_bounds [⟨-5, 3, 0, ""⟩] 30 ⟨-5, 40, 0, ""⟩ (by norm_num)⟩

open highlight in
/-- C7: `create_run_dir` makes at most five attempts, each with a freshly
generated name `openclaw-video-edit-<stamp>-<pid>-<token>`; it returns a path
that did not exist (the first fresh name not already present), and it raises
`RuntimeError` exactly when all five attempted names already exist. -/
theorem create_run_dir_spec (ex : String → Bool) (stamp : ℕ → String)
    (pid : String) (token : ℕ → String) :
    (∀ p, create_run_dir ex stamp pid token = .ok p →
      ex p = false ∧ ∃ i, i < 5 ∧ p = runDirName (stamp i) pid (token i) ∧
        ∀ j, j < i → ex (runDirName (stamp j) pid (token j)) = true) ∧
    ((∃ e, create_run_dir ex stamp pid token = .error e) ↔
      ∀ i, i < 5 → ex (runDirName (stamp i) pid (token i)) = true) := by
  set nm : ℕ → String := fun i => runDirName (stamp i) pid (token i) with hnm
  have hcr : create_run_dir ex stamp pid token = createAttempts ex nm 5 0 := rfl
  rw [hcr]
  by_cases h0 : ex (nm 0) = true
  case neg =>
    have : createAttempts ex nm 5 0 = .ok (nm 0) := by
      rw [createAttempts, if_neg (by simpa using h0)]
    rw [this]
    constructor
    · intro p hp
      obtain rfl : nm 0 = p := by injection hp
      exact ⟨by simpa using h0, 0, by omega, rfl, by omega⟩
    · constructor
      · rintro ⟨e, he⟩
        exact absurd he (by simp)
      · intro hall
        exact absurd (hall 0 (by omega)) (by simp_all)
  case pos =>
  by_cases h1 : ex (nm 1) = true
  case neg =>
    have : createAttempts ex nm 5 0 = .ok (nm 1) := by
      rw [createAttempts, if_pos h0, createAttempts, if_neg (by simpa using h1)]
    rw [this]
    constructor
    · intro p hp
      obtain rfl : nm 1 = p := by injection hp
      refine ⟨by simpa using h1, 1, by omega, rfl, ?_⟩
      intro j hj
      obtain rfl : j = 0 := by omega
      exact h0
    · constructor
      · rintro ⟨e, he⟩
        exact absurd he (by simp)
      · intro hall
        exact absurd (hall 1 (by omega)) (by simp_all)
  case pos =>
  by_cases h2 : ex (nm 2) = true
  case neg =>
    have : createAttempts ex nm 5 0 = .ok (nm 2) := by
      rw [createAttempts, if_pos h0, createAttempts, if_pos h1, createAttempts,
        if_neg (by simpa using h2)]
    rw [this]
    constructor
    · intro p hp
      obtain rfl : nm 2 = p := by injection hp
      refine ⟨by simpa using h2, 2, by omega, rfl, ?_⟩
      intro j hj
      interval_cases j
      · exact h0
      · exact h1
    · constructor
      · rintro ⟨e, he⟩
        exact absurd he (by simp)
      · intro hall
        exact absurd (hall 2 (by omega)) (by simp_all)
  case pos =>
  by_cases h3 : ex (nm 3) = true
  case neg =>
    have : createAttempts ex nm 5 0 = .ok (nm 3) := by
      rw [createAttempts, if_pos h0, createAttempts, if_pos h1, createAttempts,
        if_pos h2, createAttempts, if_neg (by simpa using h3)]
    rw [this]
    constructor
    · intro p hp
      obtain rfl : nm 3 = p := by injection hp
      refine ⟨by simpa using h3, 3, by omega, rfl, ?_⟩
      intro j hj
      interval_cases j
      · exact h0
      · exact h1
      · exact h2
    · constructor
      · rintro ⟨e, he⟩
        exact absurd he (by simp)
      · intro hall
        exact absurd (hall 3 (by omega)) (by simp_all)
  case pos =>
  by_cases h4 : ex (nm 4) = true
  case neg =>
    have : createAttempts ex nm 5 0 = .ok (nm 4) := by
      rw [createAttempts, if_pos h0, createAttempts, if_pos h1, createAttempts,
        if_pos h2, createAttempts, if_pos h3, createAttempts, if_neg (by simpa using h4)]
    rw [this]
    constructor
    · intro p hp
      obtain rfl : nm 4 = p := by injection hp
      refine ⟨by simpa using h4, 4, by omega, rfl, ?_⟩
      intro j hj
      interval_cases j
      · exact h0
      · exact h1
      · exact h2
      · exact h3
    · constructor
      · rintro ⟨e, he⟩
        exact absurd he (by simp)
      · intro hall
        exact absurd (hall 4 (by omega)) (by simp_all)
  case pos =>
    have : createAttempts ex nm 5 0 =
        .error (.runtimeError "Unable to create a unique run directory.") := by
      rw [createAttempts, if_pos h0, createAttempts, if_pos h1, createAttempts,
        if_pos h2, createAttempts, if_pos h3, createAttempts, if_pos h4, createAttempts]
    rw [this]
    constructor
    · intro p hp
      exact absurd hp (by simp)
    · constructor
      · intro _ i hi
        interval_cases i
        · exact h0
        · exact h1
        · exact h2
        · exact h3
        · exact h4
      · intro _
        exact ⟨_, rfl⟩

/-- Witness for `create_run_dir_spec` at concrete oracles: an empty
filesystem, constant stamp and pid, and the attempt index as token. -/
theorem create_run_dir_spec_witness :
    (∀ p, highlight.create_run_dir (fun _ => false) (fun _ => "20260101-000000") "42"
        (fun i => toString i) = .ok p →
      (fun _ : String => false) p = false ∧ ∃ i, i < 5 ∧
        p = highlight.runDirName "20260101-000000" "42" (toString i) ∧
        ∀ j, j < i → (fun _ : String => false)
          (highlight.runDirName "20260101-000000" "42" (toString j)) = true) ∧
    ((∃ e, highlight.create_run_dir (fun _ => false) (fun _ => "20260101-000000") "42"
        (fun i => toString i) = .error e) ↔
      ∀ i, i < 5 → (fun _ : String => false)
        (highlight.runDirName "20260101-000000" "42" (toString i)) = true) :=
  create_run_dir_spec (fun _ => false) (fun _ => "20260101-000000") "42" (fun i => toString i)

theorem pyRound_intCast (n : ℤ) : highlight.pyRound (n : ℚ) = n := by
  rw [highlight.pyRound]
  simp [Int.floor_intCast]

theorem floor_natCast_div_thousand (k : ℕ) : ⌊(k : ℚ) / 1000⌋ = ((k / 1000 : ℕ) : ℤ) := by
  rw [Int.floor_eq_iff]
  constructor
  · rw [le_div_iff₀ (by norm_num : (0:ℚ) < 1000)]
    exact_mod_cast Nat.div_mul_le_self k 1000
  · rw [div_lt_iff₀ (by norm_num : (0:ℚ) < 1000)]
    have : k < (k / 1000 + 1) * 1000 := by omega
    push_cast
    exact_mod_cast this

theorem dropWhile_eq_self_of {p : Char → Bool} {l : List Char}
    (h : ∀ c ∈ l, p c = false) : l.dropWhile p = l := by
  cases l with
  | nil => rfl
  | cons a t => simp [List.dropWhile, h a (List.mem_cons_self a t)]

theorem pyStrip_eq_self {cs : List Char} (h : ∀ c ∈ cs, highlight.isPySpace c = false) :
    highlight.pyStrip cs = cs := by
  rw [highlight.pyStrip]
  rw [dropWhile_eq_self_of h]
  rw [dropWhile_eq_self_of (fun c hc => h c (List.mem_reverse.mp hc))]
  exact List.reverse_reverse cs

theorem natDigits_mem {n : ℕ} : ∀ c ∈ natDigits n, ∃ d, d < 10 ∧ c = Char.ofNat (48 + d) := by
  induction n using Nat.strong_induction_on with
  | _ n ih =>
    rw [natDigits]
    split
    · next h =>
      intro c hc
      simp only [List.mem_singleton] at hc
      exact ⟨n, h, hc⟩
    · next h =>
      intro c hc
      rcases List.mem_append.mp hc with hc' | hc'
      · exact ih (n / 10) (Nat.div_lt_self (by omega) (by omega)) c hc'
      · simp only [List.mem_singleton] at hc'
        exact ⟨n % 10, Nat.mod_lt _ (by omega), hc'⟩

theorem padNum_mem {w n : ℕ} : ∀ c ∈ padNum w n, ∃ d, d < 10 ∧ c = Char.ofNat (48 + d) := by
  intro c hc
  rcases List.mem_append.mp hc with hc' | hc'
  · rw [List.eq_of_mem_replicate hc']
    exact ⟨0, by omega, rfl⟩
  · exact natDigits_mem c hc'

theorem digit_not_space {d : ℕ} (hd : d < 10) :
    highlight.isPySpace (Char.ofNat (48 + d)) = false := by
  interval_cases d <;> decide

theorem digit_swapDot {d : ℕ} (hd : d < 10) :
    (if Char.ofNat (48 + d) = '.' then ',' else Char.ofNat (48 + d)) = Char.ofNat (48 + d) := by
  interval_cases d <;> decide

theorem padNum_map_swapDot (w n : ℕ) :
    (padNum w n).map (fun c => if c = '.' then ',' else c) = padNum w n := by
  have h : ∀ c ∈ padNum w n, (if c = '.' then ',' else c) = id c := by
    intro c hc
    obtain ⟨d, hd, rfl⟩ := padNum_mem c hc
    exact digit_swapDot hd
  rw [List.map_congr_left h, List.map_id]

open highlight in
theorem format_srt_chars (k : ℕ) :
    (format_timestamp_srt ((k : ℚ) / 1000)).data =
      padNum 2 (k / 1000 / 3600) ++ ':' :: padNum 2 (k / 1000 % 3600 / 60)
        ++ ':' :: padNum 2 (k / 1000 % 60) ++ ',' :: padNum 3 (k % 1000) := by
  have hq0 : ¬ ((k : ℚ) / 1000 < 0) := not_lt.mpr (by positivity)
  have hfloor : ⌊(k : ℚ) / 1000⌋ = ((k / 1000 : ℕ) : ℤ) := floor_natCast_div_thousand k
  have hk' : (k : ℚ) = 1000 * ((k / 1000 : ℕ) : ℚ) + ((k % 1000 : ℕ) : ℚ) := by
    exact_mod_cast congrArg (Nat.cast (R := ℚ)) (by omega : k = 1000 * (k / 1000) + k % 1000)
  have c1 : (((k / 1000 : ℕ) : ℤ) : ℚ) = ((k / 1000 : ℕ) : ℚ) := by
    norm_cast
  have c2 : (((k % 1000 : ℕ) : ℤ) : ℚ) = ((k % 1000 : ℕ) : ℚ) := by
    norm_cast
  have hfrac : ((k : ℚ) / 1000 - (((k / 1000 : ℕ) : ℤ) : ℚ)) * 1000 =
      (((k % 1000 : ℕ) : ℤ) : ℚ) := by
    rw [c1, c2, sub_mul, div_mul_cancel₀ _ (by norm_num : (1000 : ℚ) ≠ 0), hk']
    ring
  have hfmt : format_timestamp ((k : ℚ) / 1000) =
      String.mk (timeChars (k / 1000 / 3600) (k / 1000 % 3600 / 60) (k / 1000 % 60)
        (k % 1000)) := by
    rw [format_timestamp]
    rw [if_neg hq0]
    rw [hfloor, hfrac, pyRound_intCast]
    rw [Int.toNat_natCast, Int.toNat_natCast]
  rw [format_timestamp_srt, hfmt]
  show (timeChars _ _ _ _).map (fun c => if c = '.' then ',' else c) = _
  rw [timeChars]
  simp only [List.map_append, List.map_cons, padNum_map_swapDot]
  rfl

open highlight in
theorem read3_padNum_nil {n : ℕ} (h : n < 1000) :
    read3 (padNum 3 n) = some (n, []) := by
  have := read3_padNum h []
  rwa [List.append_nil] at this

open highlight in
theorem parse_timeChars {h m s r : ℕ} (hh : h < 100) (hm : m < 60) (hs : s < 60)
    (hr : r < 1000) :
    parse_timestamp (String.mk (padNum 2 h ++ ':' :: padNum 2 m ++ ':' :: padNum 2 s
      ++ ',' :: padNum 3 r)) =
      some ((h : ℚ) * 3600 + (m : ℚ) * 60 + (s : ℚ) + (r : ℚ) / 1000) := by
  have nsd : ∀ w n : ℕ, ∀ c ∈ padNum w n, isPySpace c = false := by
    intro w n c hc
    obtain ⟨d, hd, rfl⟩ := padNum_mem c hc
    exact digit_not_space hd
  have hnospace : ∀ c ∈ padNum 2 h ++ ':' :: padNum 2 m ++ ':' :: padNum 2 s
      ++ ',' :: padNum 3 r, isPySpace c = false := by
    refine List.forall_mem_append.mpr ⟨?_, List.forall_mem_cons.mpr ⟨by decide, nsd 3 r⟩⟩
    refine List.forall_mem_append.mpr ⟨?_, List.forall_mem_cons.mpr ⟨by decide, nsd 2 s⟩⟩
    exact List.forall_mem_append.mpr ⟨nsd 2 h, List.forall_mem_cons.mpr ⟨by decide, nsd 2 m⟩⟩
  have hmatch : matchTime (padNum 2 h ++ ':' :: padNum 2 m ++ ':' :: padNum 2 s
      ++ ',' :: padNum 3 r) = some ((h, m, s, r), []) := by
    simp only [matchTime, List.append_assoc, List.cons_append, read2_padNum hh,
      read2_padNum (show m < 100 by omega), read2_padNum (show s < 100 by omega),
      read3_padNum_nil hr, readChar, Option.bind_eq_bind, Option.some_bind,
      eq_self_iff_true, ite_true, true_or, or_true]
  rw [parse_timestamp, String.data]
  rw [pyStrip_eq_self hnospace, hmatch]

open highlight in
/-- C4: formatting then parsing a timestamp is the identity on whole numbers
of milliseconds below 100 hours, and the formatted string has the shape
`HH:MM:SS,mmm` (two-digit hours, minutes and seconds, three-digit
milliseconds) that `parse_timestamp` accepts. -/
theorem parse_format_timestamp_roundtrip (k : ℕ) (hk : k < 360000000) :
    (∃ h m s r : ℕ, h < 100 ∧ m < 60 ∧ s < 60 ∧ r < 1000 ∧
      format_timestamp_srt ((k : ℚ) / 1000) =
        String.mk (padNum 2 h ++ ':' :: padNum 2 m ++ ':' :: padNum 2 s
          ++ ',' :: padNum 3 r)) ∧
    parse_timestamp (format_timestamp_srt ((k : ℚ) / 1000)) = some ((k : ℚ) / 1000) := by
  have hh : k / 1000 / 3600 < 100 := by omega
  have hm : k / 1000 % 3600 / 60 < 60 := by omega
  have hs : k / 1000 % 60 < 60 := by omega
  have hr : k % 1000 < 1000 := by omega
  have hstr : format_timestamp_srt ((k : ℚ) / 1000) =
      String.mk (padNum 2 (k / 1000 / 3600) ++ ':' :: padNum 2 (k / 1000 % 3600 / 60)
        ++ ':' :: padNum 2 (k / 1000 % 60) ++ ',' :: padNum 3 (k % 1000)) := by
    have hid : format_timestamp_srt ((k : ℚ) / 1000) =
        String.mk ((format_timestamp_srt ((k : ℚ) / 1000)).data) := rfl
    rw [hid, format_srt_chars k]
  refine ⟨⟨_, _, _, _, hh, hm, hs, hr, hstr⟩, ?_⟩
  rw [hstr, parse_timeChars hh hm hs hr]
  congr 1
  have e1 : (k / 1000 / 3600) * 3600 + (k / 1000 % 3600 / 60) * 60 + k / 1000 % 60
      = k / 1000 := by omega
  calc ((k / 1000 / 3600 : ℕ) : ℚ) * 3600 + ((k / 1000 % 3600 / 60 : ℕ) : ℚ) * 60
        + ((k / 1000 % 60 : ℕ) : ℚ) + ((k % 1000 : ℕ) : ℚ) / 1000
      = (((k / 1000 / 3600) * 3600 + (k / 1000 % 3600 / 60) * 60 + k / 1000 % 60 : ℕ) : ℚ)
        + ((k % 1000 : ℕ) : ℚ) / 1000 := by push_cast; ring
    _ = ((k / 1000 : ℕ) : ℚ) + ((k % 1000 : ℕ) : ℚ) / 1000 := by rw [e1]
    _ = ((1000 * (k / 1000) + k % 1000 : ℕ) : ℚ) / 1000 := by push_cast; ring
    _ = (k : ℚ) / 1000 := by rw [(by omega : 1000 * (k / 1000) + k % 1000 = k)]

/-- Witness for `parse_format_timestamp_roundtrip` at 01:02:03,045. -/
theorem parse_format_timestamp_roundtrip_witness :
    3723045 < 360000000 ∧
    ((∃ h m s r : ℕ, h < 100 ∧ m < 60 ∧ s < 60 ∧ r < 1000 ∧
      highlight.format_timestamp_srt ((3723045 : ℚ) / 1000) =
        String.mk (padNum 2 h ++ ':' :: padNum 2 m ++ ':' :: padNum 2 s
          ++ ',' :: padNum 3 r)) ∧
    highlight.parse_timestamp (highlight.format_timestamp_srt ((3723045 : ℚ) / 1000)) =
      some ((3723045 : ℚ) / 1000)) :=
  ⟨by norm_num, parse_format_timestamp_roundtrip 3723045 (by norm_num)⟩

open highlight in
theorem parseLoop_eq_blocksAux (ls : List String) :
    ∀ (segs : List Segment) (block : List String),
      parseLoop segs block ls = segs ++ (blocksAux block ls).filterMap parse_srt_block := by
  induction ls with
  | nil =>
    intro segs block
    rw [parseLoop, blocksAux]
    by_cases hb : block.isEmpty
    · simp [hb]
    · simp only [hb]
      cases hp : parse_srt_block block <;> simp [hp]
  | cons line rest ih =>
    intro segs block
    rw [parseLoop, blocksAux]
    by_cases hl : (pyStrip line.data).isEmpty
    · by_cases hb : block.isEmpty
      · simp only [hl, hb, if_true]
        exact ih segs []
      · simp only [hl, hb]
        simp only [Bool.false_eq_true, if_false, if_true]
        rw [ih, List.filterMap_cons]
        cases hp : parse_srt_block block <;> simp [hp]
    · simp only [hl, Bool.false_eq_true, if_false]
      exact ih segs (block ++ [line])

open highlight in
/-- C5 (amended): `parse_srt` returns one segment per parseable block, in the
order the blocks appear in the file; it does not reorder them (so the output
is sorted by start time exactly when the file's blocks are). -/
theorem parse_srt_eq_blocks (lines : List String) :
    parse_srt lines = (blocksOf lines).filterMap parse_srt_block := by
  rw [parse_srt, blocksOf]
  simpa using parseLoop_eq_blocksAux lines [] []

open highlight in
/-- C5 (counterexample): an SRT file whose blocks are out of order is parsed
into a list that is not sorted by start time — `parse_srt` keeps file
order. -/
theorem parse_srt_not_sorted :
    (parse_srt ["1", "00:00:05,000 --> 00:00:06,000", "b", "",
        "2", "00:00:01,000 --> 00:00:02,000", "a"]).map Segment.start = [5, 1] ∧
    ¬ List.Pairwise (fun a b : Segment => a.start ≤ b.start)
      (parse_srt ["1", "00:00:05,000 --> 00:00:06,000", "b", "",
        "2", "00:00:01,000 --> 00:00:02,000", "a"]) := by
  have hmap : (parse_srt ["1", "00:00:05,000 --> 00:00:06,000", "b", "",
      "2", "00:00:01,000 --> 00:00:02,000", "a"]).map Segment.start =
      [((0:ℕ):ℚ) * 3600 + ((0:ℕ):ℚ) * 60 + ((5:ℕ):ℚ) + ((0:ℕ):ℚ) / 1000,
       ((0:ℕ):ℚ) * 3600 + ((0:ℕ):ℚ) * 60 + ((1:ℕ):ℚ) + ((0:ℕ):ℚ) / 1000] := rfl
  constructor
  · rw [hmap]
    norm_num
  · intro hpw
    have h2 : List.Pairwise (fun a b : ℚ => a ≤ b)
        [((0:ℕ):ℚ) * 3600 + ((0:ℕ):ℚ) * 60 + ((5:ℕ):ℚ) + ((0:ℕ):ℚ) / 1000,
         ((0:ℕ):ℚ) * 3600 + ((0:ℕ):ℚ) * 60 + ((1:ℕ):ℚ) + ((0:ℕ):ℚ) / 1000] := by
      rw [← hmap]
      exact (List.pairwise_map).mpr hpw
    have h51 := (List.pairwise_cons.mp h2).1
      (((0:ℕ):ℚ) * 3600 + ((0:ℕ):ℚ) * 60 + ((1:ℕ):ℚ) + ((0:ℕ):ℚ) / 1000) (by simp)
    norm_num at h51

open highlight in
theorem writeBlock_eq_claimBlock (idx : ℕ) (seg : Segment)
    (tr : Option (Int → Option String)) :
    writeBlock idx seg tr = claimBlock idx seg tr := by
  unfold writeBlock claimBlock
  cases tr with
  | none => simp [String.append_assoc]
  | some m =>
    cases hm : m seg.id with
    | none => simp [hm, String.append_assoc]
    | some t =>
      by_cases ht : t = ""
      · simp [hm, ht, String.append_assoc]
      · simp [hm, ht, String.append_assoc]

theorem foldl_strApp_init (l : List String) :
    ∀ s t : String, List.foldl (fun r x => r ++ x) (s ++ t) l =
      s ++ List.foldl (fun r x => r ++ x) t l := by
  induction l with
  | nil => intro s t; rfl
  | cons a r ih =>
    intro s t
    rw [List.foldl_cons, List.foldl_cons, String.append_assoc, ih]

theorem strJoin_cons (s : String) (l : List String) :
    String.join (s :: l) = s ++ String.join l := by
  rw [String.join, String.join, List.foldl_cons]
  have h1 : ("" : String) ++ s = s ++ "" := by simp
  rw [h1, foldl_strApp_init]

open highlight in
theorem join_writeBlocks (tr : Option (Int → Option String)) :
    ∀ (segs : List Segment) (i : ℕ),
      String.join ((List.enumFrom i segs).map fun p => writeBlock (p.1 + 1) p.2 tr) =
        writeSrtClaim (i + 1) segs tr := by
  intro segs
  induction segs with
  | nil => intro i; rfl
  | cons seg rest ih =>
    intro i
    rw [List.enumFrom_cons, List.map_cons, strJoin_cons, writeSrtClaim,
      writeBlock_eq_claimBlock, ih]

open highlight in
/-- C6: `write_srt` writes one SRT block per segment in list order, numbered
consecutively from 1; the translated text is appended as a second text line
exactly when the mapping contains a non-empty translation for the segment's
id, a segment without one keeps its original text only, and the timing line
does not depend on the translations (the claim-side description
`writeSrtClaim`/`claimBlock` makes all of this explicit). -/
theorem write_srt_eq_claim (segments : List Segment)
    (translations : Option (Int → Option String)) :
    write_srt segments translations = writeSrtClaim 1 segments translations := by
  rw [write_srt]
  exact join_writeBlocks translations segments 0

namespace highlight

theorem covers_cons (a : Range) (l : List Range) (x : ℚ) :
    covers (a :: l) x ↔ (a.start ≤ x ∧ x ≤ a.«end») ∨ covers l x := by
  simp [covers]

theorem mergeInto_head (rest : List Range) :
    ∀ last : Range, ∃ hd tl, mergeInto last rest = hd :: tl ∧ hd.start = last.start := by
  induction rest with
  | nil => intro last; exact ⟨last, [], rfl, rfl⟩
  | cons item rest ih =>
    intro last
    rw [mergeInto]
    by_cases h : item.start ≤ last.«end»
    · rw [if_pos h]
      exact ih _
    · rw [if_neg h]
      exact ⟨last, _, rfl, rfl⟩

theorem mergeInto_start_ge (rest : List Range) :
    ∀ last : Range,
      (∀ r ∈ rest, last.start ≤ r.start) →
      List.Pairwise (fun a b : Range => a.start ≤ b.start) rest →
      ∀ b ∈ mergeInto last rest, last.start ≤ b.start := by
  induction rest with
  | nil =>
    intro last _ _ b hb
    rw [mergeInto] at hb
    simp only [List.mem_singleton] at hb
    exact hb ▸ le_refl _
  | cons item rest ih =>
    intro last hge hsorted b hb
    rw [mergeInto] at hb
    by_cases h : item.start ≤ last.«end»
    · rw [if_pos h] at hb
      exact ih (mergedRange last item) (fun r hr => hge r (List.mem_cons_of_mem _ hr))
        (List.pairwise_cons.mp hsorted).2 b hb
    · rw [if_neg h] at hb
      rcases List.mem_cons.mp hb with rfl | hb'
      · exact le_refl _
      · have h1 : last.start ≤ item.start := hge item (List.mem_cons_self _ _)
        have h2 := ih item (List.pairwise_cons.mp hsorted).1
          (List.pairwise_cons.mp hsorted).2 b hb'
        exact le_trans h1 h2

theorem mergeInto_wf (rest : List Range) :
    ∀ last : Range,
      last.start ≤ last.«end» →
      (∀ r ∈ rest, r.start ≤ r.«end») →
      ∀ b ∈ mergeInto last rest, b.start ≤ b.«end» := by
  induction rest with
  | nil =>
    intro last hwl _ b hb
    rw [mergeInto] at hb
    simp only [List.mem_singleton] at hb
    exact hb ▸ hwl
  | cons item rest ih =>
    intro last hwl hwf b hb
    rw [mergeInto] at hb
    by_cases h : item.start ≤ last.«end»
    · rw [if_pos h] at hb
      refine ih (mergedRange last item) ?_ (fun r hr => hwf r (List.mem_cons_of_mem _ hr)) b hb
      exact le_trans hwl (le_max_left _ _)
    · rw [if_neg h] at hb
      rcases List.mem_cons.mp hb with rfl | hb'
      · exact hwl
      · exact ih item (hwf item (List.mem_cons_self _ _))
          (fun r hr => hwf r (List.mem_cons_of_mem _ hr)) b hb'

theorem mergeInto_gap (rest : List Range) :
    ∀ last : Range,
      (∀ r ∈ rest, r.start ≤ r.«end») →
      (∀ r ∈ rest, last.start ≤ r.start) →
      List.Pairwise (fun a b : Range => a.start ≤ b.start) rest →
      List.Pairwise (fun a b : Range => a.«end» < b.start) (mergeInto last rest) := by
  induction rest with
  | nil =>
    intro last _ _ _
    rw [mergeInto]
    exact List.pairwise_singleton _ _
  | cons item rest ih =>
    intro last hwf hge hsorted
    rw [mergeInto]
    by_cases h : item.start ≤ last.«end»
    · rw [if_pos h]
      exact ih (mergedRange last item) (fun r hr => hwf r (List.mem_cons_of_mem _ hr))
        (fun r hr => hge r (List.mem_cons_of_mem _ hr))
        (List.pairwise_cons.mp hsorted).2
    · rw [if_neg h]
      push_neg at h
      refine List.pairwise_cons.mpr ⟨?_, ?_⟩
      · intro b hb
        have hb' := mergeInto_start_ge rest item (List.pairwise_cons.mp hsorted).1
          (List.pairwise_cons.mp hsorted).2 b hb
        exact lt_of_lt_of_le h hb'
      · exact ih item (fun r hr => hwf r (List.mem_cons_of_mem _ hr))
          (List.pairwise_cons.mp hsorted).1 (List.pairwise_cons.mp hsorted).2

theorem mergeInto_covers (rest : List Range) :
    ∀ last : Range,
      (∀ r ∈ rest, r.start ≤ r.«end») →
      (∀ r ∈ rest, last.start ≤ r.start) →
      List.Pairwise (fun a b : Range => a.start ≤ b.start) rest →
      ∀ x : ℚ, covers (mergeInto last rest) x ↔
        (last.start ≤ x ∧ x ≤ last.«end») ∨ covers rest x := by
  induction rest with
  | nil =>
    intro last _ _ _ x
    rw [mergeInto, covers_cons]
  | cons item rest ih =>
    intro last hwf hge hsorted x
    rw [mergeInto]
    by_cases h : item.start ≤ last.«end»
    · rw [if_pos h]
      rw [ih (mergedRange last item) (fun r hr => hwf r (List.mem_cons_of_mem _ hr))
        (fun r hr => hge r (List.mem_cons_of_mem _ hr))
        (List.pairwise_cons.mp hsorted).2 x]
      rw [covers_cons]
      have hitem : item.start ≤ item.«end» := hwf item (List.mem_cons_self _ _)
      have hgi : last.start ≤ item.start := hge item (List.mem_cons_self _ _)
      constructor
      · rintro (⟨h1, h2⟩ | hc)
        · by_cases hle : x ≤ last.«end»
          · exact Or.inl ⟨h1, hle⟩
          · push_neg at hle
            rcases le_max_iff.mp h2 with h3 | h3
            · exact absurd h3 (not_le.mpr hle)
            · exact Or.inr (Or.inl ⟨le_trans h (le_of_lt hle), h3⟩)
        · exact Or.inr (Or.inr hc)
      · rintro (⟨h1, h2⟩ | ⟨h1, h2⟩ | hc)
        · exact Or.inl ⟨h1, le_trans h2 (le_max_left _ _)⟩
        · exact Or.inl ⟨le_trans hgi h1, le_trans h2 (le_max_right _ _)⟩
        · exact Or.inr hc
    · rw [if_neg h]
      rw [covers_cons]
      rw [ih item (fun r hr => hwf r (List.mem_cons_of_mem _ hr))
        (List.pairwise_cons.mp hsorted).1 (List.pairwise_cons.mp hsorted).2 x]
      rw [covers_cons]

theorem covers_of_perm {l₁ l₂ : List Range} (hp : l₁.Perm l₂) (x : ℚ) :
    covers l₁ x ↔ covers l₂ x := by
  simp only [covers]
  constructor
  · rintro ⟨r, hr, h⟩
    exact ⟨r, hp.mem_iff.mp hr, h⟩
  · rintro ⟨r, hr, h⟩
    exact ⟨r, hp.mem_iff.mpr hr, h⟩

end highlight

open highlight in
/-- C1: for well-formed input ranges (start ≤ end), `merge_ranges` returns a
list sorted by start in which every range starts strictly after every earlier
range's end (so the output ranges are pairwise non-overlapping), and whose
union of closed intervals equals the union of the input intervals. -/
theorem merge_ranges_spec (ranges : List Range)
    (hwf : ∀ r ∈ ranges, r.start ≤ r.«end») :
    List.Pairwise (fun a b : Range => a.start ≤ b.start) (merge_ranges ranges) ∧
    List.Pairwise (fun a b : Range => a.«end» < b.start) (merge_ranges ranges) ∧
    (∀ x : ℚ, covers (merge_ranges ranges) x ↔ covers ranges x) := by
  have hperm : (ranges.mergeSort (fun a b => decide (a.start ≤ b.start))).Perm ranges :=
    List.mergeSort_perm ranges _
  have hsorted : List.Pairwise
      (fun a b : Range => (fun a b : Range => decide (a.start ≤ b.start)) a b = true)
      (ranges.mergeSort (fun a b => decide (a.start ≤ b.start))) := by
    refine List.sorted_mergeSort ?_ ?_ ranges
    · intro a b c hab hbc
      exact decide_eq_true (le_trans (of_decide_eq_true hab) (of_decide_eq_true hbc))
    · intro a b
      rcases le_total a.start b.start with h | h
      · simp [h]
      · simp [h]
  have hsorted' : List.Pairwise (fun a b : Range => a.start ≤ b.start)
      (ranges.mergeSort (fun a b => decide (a.start ≤ b.start))) :=
    hsorted.imp (fun h => of_decide_eq_true h)
  have hwf' : ∀ r ∈ ranges.mergeSort (fun a b => decide (a.start ≤ b.start)),
      r.start ≤ r.«end» := fun r hr => hwf r (hperm.mem_iff.mp hr)
  rcases hms : ranges.mergeSort (fun a b => decide (a.start ≤ b.start)) with _ | ⟨r, rest⟩
  · have hnil : ranges = [] := (hms ▸ hperm).symm.eq_nil
    subst hnil
    rw [merge_ranges]
    simp [covers]
  · have hout : merge_ranges ranges = mergeInto r rest := by
      rw [merge_ranges, hms]
    rw [hms] at hsorted' hwf' hperm
    have hge : ∀ b ∈ rest, r.start ≤ b.start := (List.pairwise_cons.mp hsorted').1
    have hrest : List.Pairwise (fun a b : Range => a.start ≤ b.start) rest :=
      (List.pairwise_cons.mp hsorted').2
    have hwfr : r.start ≤ r.«end» := hwf' r (List.mem_cons_self _ _)
    have hwfrest : ∀ b ∈ rest, b.start ≤ b.«end» :=
      fun b hb => hwf' b (List.mem_cons_of_mem _ hb)
    have hgap := mergeInto_gap rest r hwfrest hge hrest
    have houtwf := mergeInto_wf rest r hwfr hwfrest
    refine ⟨?_, ?_, ?_⟩
    · rw [hout]
      refine hgap.imp_of_mem ?_
      intro a b ha hb hab
      exact le_trans (houtwf a ha) (le_of_lt hab)
    · rw [hout]
      exact hgap
    · intro x
      rw [hout, mergeInto_covers rest r hwfrest hge hrest x, ← covers_cons]
      exact covers_of_perm hperm x

/-- Witness for `merge_ranges_spec` at overlapping concrete ranges. -/
theorem merge_ranges_spec_witness :
    (∀ r ∈ [({start := 2, «end» := 5, score := 1, reason := "b"} : highlight.Range),
        {start := 0, «end» := 3, score := 2, reason := "a"},
        {start := 7, «end» := 8, score := 0, reason := ""}], r.start ≤ r.«end») ∧
    (List.Pairwise (fun a b : highlight.Range => a.start ≤ b.start)
        (highlight.merge_ranges [{start := 2, «end» := 5, score := 1, reason := "b"},
          {start := 0, «end» := 3, score := 2, reason := "a"},
          {start := 7, «end» := 8, score := 0, reason := ""}]) ∧
      List.Pairwise (fun a b : highlight.Range => a.«end» < b.start)
        (highlight.merge_ranges [{start := 2, «end» := 5, score := 1, reason := "b"},
          {start := 0, «end» := 3, score := 2, reason := "a"},
          {start := 7, «end» := 8, score := 0, reason := ""}]) ∧
      (∀ x : ℚ, highlight.covers
          (highlight.merge_ranges [{start := 2, «end» := 5, score := 1, reason := "b"},
            {start := 0, «end» := 3, score := 2, reason := "a"},
            {start := 7, «end» := 8, score := 0, reason := ""}]) x ↔
        highlight.covers [{start := 2, «end» := 5, score := 1, reason := "b"},
          {start := 0, «end» := 3, score := 2, reason := "a"},
          {start := 7, «end» := 8, score := 0, reason := ""}] x)) :=
  ⟨by norm_num, merge_ranges_spec _ (by norm_num)⟩

theorem except_bind_ok {ε α β : Type} (o : α) (f : α → Except ε β) :
    (Except.ok o : Except ε α) >>= f = f o := rfl

theorem except_bind_err {ε α β : Type} (e : ε) (f : α → Except ε β) :
    (Except.error e : Except ε α) >>= f = Except.error e := rfl

namespace highlight

theorem processItem_not_passes (byId : Int → Option Segment) (item : PyVal)
    (h : itemPasses byId item = false) :
    processItem byId item = .ok none ∧ itemRange byId item = none := by
  cases item with
  | vint n => exact ⟨rfl, rfl⟩
  | vfloat q => exact ⟨rfl, rfl⟩
  | vstr s => exact ⟨rfl, rfl⟩
  | vlist l => exact ⟨rfl, rfl⟩
  | vdict d =>
    rw [itemPasses] at h
    rw [processItem, itemRange]
    rcases hsa : (PyVal.dictGet d "start_id").bind PyVal.asInt with _ | a
    · simp [hsa]
    rcases hsb : (PyVal.dictGet d "end_id").bind PyVal.asInt with _ | b
    · simp [hsa, hsb]
    rcases hba : byId a with _ | sa
    · simp [hsa, hsb, hba]
    rcases hbb : byId b with _ | sb
    · simp [hsa, hsb, hba, hbb]
    simp [hsa, hsb, hba, hbb] at h

theorem processItem_ok (byId : Int → Option Segment) (item : PyVal)
    (hp : itemPasses byId item = true) (hc : itemConverts item = true) :
    processItem byId item = .ok (itemRange byId item) ∧
      (itemRange byId item).isSome = true := by
  cases item with
  | vint n => simp [itemPasses] at hp
  | vfloat q => simp [itemPasses] at hp
  | vstr s => simp [itemPasses] at hp
  | vlist l => simp [itemPasses] at hp
  | vdict d =>
    rw [itemPasses] at hp
    rw [itemConverts] at hc
    rcases hsa : (PyVal.dictGet d "start_id").bind PyVal.asInt with _ | a
    · simp [hsa] at hp
    rcases hsb : (PyVal.dictGet d "end_id").bind PyVal.asInt with _ | b
    · simp [hsa, hsb] at hp
    rcases hba : byId a with _ | sa
    · simp [hsa, hsb, hba] at hp
    rcases hbb : byId b with _ | sb
    · simp [hsa, hsb, hba, hbb] at hp
    rcases hpb : pyFloat (PyVal.dictGetD d "pad_before" (.vint 0)) with e | pb
    · simp [hpb, Except.isOk, Except.toBool] at hc
    rcases hpa : pyFloat (PyVal.dictGetD d "pad_after" (.vint 0)) with e | pa
    · simp [hpb, hpa, Except.isOk, Except.toBool] at hc
    rcases hsc : pyFloat (PyVal.dictGetD d "score" (.vint 0)) with e | sc
    · simp [hpb, hpa, hsc, Except.isOk, Except.toBool] at hc
    rw [processItem, itemRange]
    by_cases hab : b < a <;>
      simp [hsa, hsb, hba, hbb, hpb, hpa, hsc, hab, Except.toOption, except_bind_ok]

theorem processItem_not_converts (byId : Int → Option Segment) (item : PyVal)
    (hp : itemPasses byId item = true) (hc : itemConverts item = false) :
    (processItem byId item).isOk = false := by
  cases item with
  | vint n => simp [itemPasses] at hp
  | vfloat q => simp [itemPasses] at hp
  | vstr s => simp [itemPasses] at hp
  | vlist l => simp [itemPasses] at hp
  | vdict d =>
    rw [itemPasses] at hp
    rw [itemConverts] at hc
    rcases hsa : (PyVal.dictGet d "start_id").bind PyVal.asInt with _ | a
    · simp [hsa] at hp
    rcases hsb : (PyVal.dictGet d "end_id").bind PyVal.asInt with _ | b
    · simp [hsa, hsb] at hp
    rcases hba : byId a with _ | sa
    · simp [hsa, hsb, hba] at hp
    rcases hbb : byId b with _ | sb
    · simp [hsa, hsb, hba, hbb] at hp
    rw [processItem]
    rcases hpb : pyFloat (PyVal.dictGetD d "pad_before" (.vint 0)) with e | pb
    · by_cases hab : b < a <;>
        simp [hsa, hsb, hba, hbb, hpb, hab, Except.isOk, Except.toBool,
          except_bind_err]
    rcases hpa : pyFloat (PyVal.dictGetD d "pad_after" (.vint 0)) with e | pa
    · by_cases hab : b < a <;>
        simp [hsa, hsb, hba, hbb, hpb, hpa, hab, Except.isOk, Except.toBool,
          except_bind_ok, except_bind_err]
    rcases hsc : pyFloat (PyVal.dictGetD d "score" (.vint 0)) with e | sc
    · by_cases hab : b < a <;>
        simp [hsa, hsb, hba, hbb, hpb, hpa, hsc, hab, Except.isOk, Except.toBool,
          except_bind_ok, except_bind_err]
    · simp [hpb, hpa, hsc, Except.isOk, Except.toBool] at hc

end highlight

namespace highlight

theorem selectLoop_isOk (byId : Int → Option Segment) (hl : List PyVal) :
    (selectLoop byId hl).isOk = true ↔
      ∀ item ∈ hl, itemPasses byId item = true → itemConverts item = true := by
  induction hl with
  | nil => simp [selectLoop, Except.isOk, Except.toBool]
  | cons item rest ih =>
    rw [selectLoop]
    by_cases hp : itemPasses byId item = true
    · by_cases hc : itemConverts item = true
      · have h1 := (processItem_ok byId item hp hc).1
        rw [h1, except_bind_ok]
        constructor
        · intro h
          intro it hit
          rcases List.mem_cons.mp hit with rfl | hit'
          · intro _; exact hc
          · rcases hrs : selectLoop byId rest with e | rs
            · rw [hrs, except_bind_err] at h
              simp [Except.isOk, Except.toBool] at h
            · exact (ih.mp (by simp [hrs, Except.isOk, Except.toBool])) it hit'
        · intro h
          rcases hrs : selectLoop byId rest with e | rs
          · have : (selectLoop byId rest).isOk = true :=
              ih.mpr fun it hit => h it (List.mem_cons_of_mem _ hit)
            rw [hrs] at this
            simp [Except.isOk, Except.toBool] at this
          · simp [hrs, except_bind_ok, Except.isOk, Except.toBool]
      · have hbad := processItem_not_converts byId item hp (by simpa using hc)
        rcases hpi : processItem byId item with e | o
        · rw [except_bind_err]
          simp only [Except.isOk, Except.toBool]
          constructor
          · intro h; exact absurd h (by simp)
          · intro h
            exact absurd (h item (List.mem_cons_self _ _) hp) hc
        · rw [hpi] at hbad
          simp [Except.isOk, Except.toBool] at hbad
    · have h1 := (processItem_not_passes byId item (by simpa using hp)).1
      rw [h1, except_bind_ok]
      constructor
      · intro h it hit
        rcases List.mem_cons.mp hit with rfl | hit'
        · intro hpp; exact absurd hpp hp
        · rcases hrs : selectLoop byId rest with e | rs
          · rw [hrs, except_bind_err] at h
            simp [Except.isOk, Except.toBool] at h
          · exact (ih.mp (by simp [hrs, Except.isOk, Except.toBool])) it hit'
      · intro h
        rcases hrs : selectLoop byId rest with e | rs
        · have : (selectLoop byId rest).isOk = true :=
            ih.mpr fun it hit => h it (List.mem_cons_of_mem _ hit)
          rw [hrs] at this
          simp [Except.isOk, Except.toBool] at this
        · simp [hrs, except_bind_ok, Except.isOk, Except.toBool]

theorem selectLoop_eq (byId : Int → Option Segment) (hl : List PyVal)
    (h : ∀ item ∈ hl, itemPasses byId item = true → itemConverts item = true) :
    selectLoop byId hl = .ok (hl.filterMap (itemRange byId)) := by
  induction hl with
  | nil => rfl
  | cons item rest ih =>
    rw [selectLoop]
    have hrest := ih fun it hit => h it (List.mem_cons_of_mem _ hit)
    by_cases hp : itemPasses byId item = true
    · have hc := h item (List.mem_cons_self _ _) hp
      have h1 := (processItem_ok byId item hp hc).1
      rw [h1, except_bind_ok, hrest, except_bind_ok, List.filterMap_cons]
      cases hir : itemRange byId item <;> simp [hir]
    · obtain ⟨h1, h2⟩ := processItem_not_passes byId item (by simpa using hp)
      rw [h1, except_bind_ok, hrest, except_bind_ok, List.filterMap_cons, h2]
      simp

end highlight

open highlight in
/-- C2 (amended): `select_ranges` succeeds iff the `highlights` value is a
non-empty list, some item passes the id validation, and every item that
passes it also survives the `float()` conversions of its `pad_before`,
`pad_after` and `score` fields (a failing conversion raises instead of
skipping the item); on success it returns exactly one range per valid item,
in input order, and the result is non-empty. -/
theorem select_ranges_spec (data : List (String × PyVal)) (segments : List Segment) :
    ((select_ranges data segments).isOk = true ↔
      ∃ hl, PyVal.dictGet data "highlights" = some (.vlist hl) ∧ hl ≠ [] ∧
        (∀ item ∈ hl, itemPasses (by_id segments) item = true →
          itemConverts item = true) ∧
        (∃ item ∈ hl, itemPasses (by_id segments) item = true)) ∧
    (∀ hl rs, PyVal.dictGet data "highlights" = some (.vlist hl) →
      select_ranges data segments = .ok rs →
      rs = hl.filterMap (itemRange (by_id segments)) ∧ rs ≠ []) := by
  rcases hd : PyVal.dictGet data "highlights" with _ | v
  · constructor
    · rw [select_ranges, hd]
      simp [Except.isOk, Except.toBool]
    · intro hl rs hget
      exact absurd hget (by simp)
  · cases v with
    | vint n =>
      constructor
      · rw [select_ranges, hd]; simp [Except.isOk, Except.toBool]
      · intro hl rs hget; exact absurd hget (by simp)
    | vfloat q =>
      constructor
      · rw [select_ranges, hd]; simp [Except.isOk, Except.toBool]
      · intro hl rs hget; exact absurd hget (by simp)
    | vstr s =>
      constructor
      · rw [select_ranges, hd]; simp [Except.isOk, Except.toBool]
      · intro hl rs hget; exact absurd hget (by simp)
    | vdict d' =>
      constructor
      · rw [select_ranges, hd]; simp [Except.isOk, Except.toBool]
      · intro hl rs hget; exact absurd hget (by simp)
    | vlist hl =>
      have hred : select_ranges data segments =
          (if hl.isEmpty then .error (.valueError "LLM output missing highlights list.")
           else do
             let rs ← selectLoop (by_id segments) hl
             if rs.isEmpty then
               .error (.valueError "No valid highlight ranges produced.")
             else .ok rs) := by
        rw [select_ranges, hd]
      by_cases hhl : hl.isEmpty
      · rw [if_pos hhl] at hred
        have hnil : hl = [] := by simpa using hhl
        constructor
        · rw [hred]
          simp only [Except.isOk, Except.toBool, hd]
          constructor
          · intro h; exact absurd h (by simp)
          · rintro ⟨hl', heq, hne, -, -⟩
            obtain rfl : hl = hl' := by
              injection heq with h1; injection h1
            exact absurd hnil hne
        · intro hl' rs hget hok
          rw [hred] at hok
          exact absurd hok (by simp)
      · rw [if_neg hhl] at hred
        by_cases hconv : ∀ item ∈ hl, itemPasses (by_id segments) item = true →
            itemConverts item = true
        · rw [selectLoop_eq _ _ hconv, except_bind_ok] at hred
          by_cases hrs : (hl.filterMap (itemRange (by_id segments))).isEmpty
          · rw [if_pos hrs] at hred
            have hnone : ∀ item ∈ hl, itemRange (by_id segments) item = none := by
              have := List.isEmpty_iff.mp hrs
              intro item hit
              exact List.filterMap_eq_nil_iff.mp this item hit
            constructor
            · rw [hred]
              simp only [Except.isOk, Except.toBool, hd]
              constructor
              · intro h; exact absurd h (by simp)
              · rintro ⟨hl', heq, -, -, item, hit, hpass⟩
                obtain rfl : hl = hl' := by
                  injection heq with h1; injection h1
                have := (processItem_ok (by_id segments) item hpass
                  (hconv item hit hpass)).2
                rw [hnone item hit] at this
                simp at this
            · intro hl' rs hget hok
              rw [hred] at hok
              exact absurd hok (by simp)
          · rw [if_neg hrs] at hred
            constructor
            · rw [hred]
              simp only [Except.isOk, Except.toBool, hd]
              constructor
              · intro _
                have hne2 : hl.filterMap (itemRange (by_id segments)) ≠ [] := by
                  simpa using hrs
                obtain ⟨r, hr⟩ := List.exists_mem_of_ne_nil _ hne2
                obtain ⟨item, hit, hir⟩ := List.mem_filterMap.mp hr
                refine ⟨hl, rfl, by simpa using hhl, hconv, item, hit, ?_⟩
                by_contra hnp
                have h0 := (processItem_not_passes (by_id segments) item
                  (by simpa using hnp)).2
                rw [h0] at hir
                exact Option.noConfusion hir
              · intro _
                simp
            · intro hl' rs hget hok
              obtain rfl : hl = hl' := by
                injection hget with h1; injection h1
              rw [hred] at hok
              injection hok with h1
              subst h1
              exact ⟨rfl, by simpa using hrs⟩
        · have hfail : (selectLoop (by_id segments) hl).isOk = false := by
            rcases h : (selectLoop (by_id segments) hl).isOk with _ | _
            · rfl
            · exact absurd ((selectLoop_isOk _ _).mp h) hconv
          rcases hsl : selectLoop (by_id segments) hl with e | rs
          · rw [hsl, except_bind_err] at hred
            constructor
            · rw [hred]
              simp only [Except.isOk, Except.toBool, hd]
              constructor
              · intro h; exact absurd h (by simp)
              · rintro ⟨hl', heq, -, hcv, -⟩
                obtain rfl : hl = hl' := by
                  injection heq with h1; injection h1
                exact absurd hcv hconv
            · intro hl' rs hget hok
              rw [hred] at hok
              exact absurd hok (by simp)
          · rw [hsl] at hfail
            simp [Except.isOk, Except.toBool] at hfail

/-- C2 (counterexample): a highlight item with valid, known integer ids but a
`pad_before` string that does not parse as a float is not skipped — the
`float()` call raises and `select_ranges` fails instead of returning the
range the claim promises. -/
theorem select_ranges_counterexample :
    highlight.itemPasses
      (highlight.by_id [{ id := 1, start := 10, «end» := 11, text := "a" },
        { id := 2, start := 12, «end» := 13, text := "b" }])
      (PyVal.vdict [("start_id", PyVal.vint 1), ("end_id", PyVal.vint 2),
        ("pad_before", PyVal.vstr "abc")]) = true ∧
    (highlight.select_ranges
      [("highlights", PyVal.vlist [PyVal.vdict [("start_id", PyVal.vint 1),
        ("end_id", PyVal.vint 2), ("pad_before", PyVal.vstr "abc")]])]
      [{ id := 1, start := 10, «end» := 11, text := "a" },
        { id := 2, start := 12, «end» := 13, text := "b" }]).isOk = false := by
  constructor
  · rfl
  · rfl

open highlight in
/-- C3: a highlight item that passes validation produces a range starting at
the start of the segment with the smaller id minus `pad_before` and ending at
the end of the segment with the larger id plus `pad_after` (ids are swapped
when `end_id < start_id`), and a missing `pad_before`/`pad_after` defaults
to 0. -/
theorem select_ranges_item_times (byId : Int → Option Segment)
    (d : List (String × PyVal)) (a b : Int) (smin smax : Segment) (pb pa sc : ℚ)
    (hsa : (PyVal.dictGet d "start_id").bind PyVal.asInt = some a)
    (hsb : (PyVal.dictGet d "end_id").bind PyVal.asInt = some b)
    (hmin : byId (min a b) = some smin)
    (hmax : byId (max a b) = some smax)
    (hpb : pyFloat (PyVal.dictGetD d "pad_before" (.vint 0)) = .ok pb)
    (hpa : pyFloat (PyVal.dictGetD d "pad_after" (.vint 0)) = .ok pa)
    (hsc : pyFloat (PyVal.dictGetD d "score" (.vint 0)) = .ok sc) :
    (∃ r : Range, processItem byId (.vdict d) = .ok (some r) ∧
      r.start = smin.start - pb ∧ r.«end» = smax.«end» + pa) ∧
    (PyVal.dictGet d "pad_before" = none → pb = 0) ∧
    (PyVal.dictGet d "pad_after" = none → pa = 0) := by
  refine ⟨?_, ?_, ?_⟩
  · refine ⟨{ start := smin.start - pb
              «end» := smax.«end» + pa
              score := sc
              reason := pyStr (PyVal.dictGetD d "reason" (.vstr "")) }, ?_, rfl, rfl⟩
    rw [processItem]
    by_cases hab : b < a
    · have h1 : min a b = b := min_eq_right (le_of_lt hab)
      have h2 : max a b = a := max_eq_left (le_of_lt hab)
      rw [h1] at hmin
      rw [h2] at hmax
      simp [hsa, hsb, hmin, hmax, hab, hpb, hpa, hsc, except_bind_ok]
    · have hba : a ≤ b := le_of_not_lt hab
      have h1 : min a b = a := min_eq_left hba
      have h2 : max a b = b := max_eq_right hba
      rw [h1] at hmin
      rw [h2] at hmax
      simp [hsa, hsb, hmin, hmax, hab, hpb, hpa, hsc, except_bind_ok]
  · intro h0
    rw [PyVal.dictGetD, h0] at hpb
    simp only [Option.getD_none, pyFloat] at hpb
    injection hpb with h1
    rw [← h1]
    norm_num
  · intro h0
    rw [PyVal.dictGetD, h0] at hpa
    simp only [Option.getD_none, pyFloat] at hpa
    injection hpa with h1
    rw [← h1]
    norm_num

open highlight in
/-- Witness for `select_ranges_spec` at a concrete payload with one valid
highlight item. -/
theorem select_ranges_spec_witness :
    ((select_ranges [("highlights", PyVal.vlist [PyVal.vdict [("start_id", PyVal.vint 1), ("end_id", PyVal.vint 1)]])] [{ id := 1, start := 0, «end» := 1, text := "t" }]).isOk = true ↔
      ∃ hl, PyVal.dictGet [("highlights", PyVal.vlist [PyVal.vdict [("start_id", PyVal.vint 1), ("end_id", PyVal.vint 1)]])] "highlights" = some (.vlist hl) ∧ hl ≠ [] ∧
        (∀ item ∈ hl, itemPasses (by_id [{ id := 1, start := 0, «end» := 1, text := "t" }]) item = true →
          itemConverts item = true) ∧
        (∃ item ∈ hl, itemPasses (by_id [{ id := 1, start := 0, «end» := 1, text := "t" }]) item = true)) ∧
    (∀ hl rs, PyVal.dictGet [("highlights", PyVal.vlist [PyVal.vdict [("start_id", PyVal.vint 1), ("end_id", PyVal.vint 1)]])] "highlights" = some (.vlist hl) →
      select_ranges [("highlights", PyVal.vlist [PyVal.vdict [("start_id", PyVal.vint 1), ("end_id", PyVal.vint 1)]])] [{ id := 1, start := 0, «end» := 1, text := "t" }] = .ok rs →
      rs = hl.filterMap (itemRange (by_id [{ id := 1, start := 0, «end» := 1, text := "t" }])) ∧ rs ≠ []) :=
  select_ranges_spec
    [("highlights", PyVal.vlist [PyVal.vdict [("start_id", PyVal.vint 1), ("end_id", PyVal.vint 1)]])]
    [{ id := 1, start := 0, «end» := 1, text := "t" }]

open highlight in
/-- Witness for `select_ranges_item_times` at a concrete item whose
`end_id` is smaller than its `start_id` and whose pads are missing. -/
theorem select_ranges_item_times_witness :
    by_id [{ id := 1, start := 10, «end» := 11, text := "a" }, { id := 2, start := 12, «end» := 13, text := "b" }] (min 2 1) = some { id := 1, start := 10, «end» := 11, text := "a" } ∧
    ((∃ r : Range, processItem
        (by_id [{ id := 1, start := 10, «end» := 11, text := "a" }, { id := 2, start := 12, «end» := 13, text := "b" }])
        (.vdict [("start_id", PyVal.vint 2), ("end_id", PyVal.vint 1)]) = .ok (some r) ∧
        r.start = ({ id := 1, start := 10, «end» := 11, text := "a" } : Segment).start - ((0 : ℤ) : ℚ) ∧
        r.«end» = ({ id := 2, start := 12, «end» := 13, text := "b" } : Segment).«end» + ((0 : ℤ) : ℚ)) ∧
      (PyVal.dictGet [("start_id", PyVal.vint 2), ("end_id", PyVal.vint 1)] "pad_before" = none → ((0 : ℤ) : ℚ) = 0) ∧
      (PyVal.dictGet [("start_id", PyVal.vint 2), ("end_id", PyVal.vint 1)] "pad_after" = none → ((0 : ℤ) : ℚ) = 0)) :=
  ⟨rfl, select_ranges_item_times
    (by_id [{ id := 1, start := 10, «end» := 11, text := "a" }, { id := 2, start := 12, «end» := 13, text := "b" }])
    [("start_id", PyVal.vint 2), ("end_id", PyVal.vint 1)] 2 1
    { id := 1, start := 10, «end» := 11, text := "a" }
    { id := 2, start := 12, «end» := 13, text := "b" }
    ((0 : ℤ) : ℚ) ((0 : ℤ) : ℚ) ((0 : ℤ) : ℚ) rfl rfl rfl rfl rfl rfl rfl⟩

/-- C10 (counterexample): a dict whose single utterance lacks `end_time`
makes `doubao_to_srt` raise (KeyError) instead of returning one SRT block per
utterance as the claim states for every input dict. -/
theorem doubao_to_srt_counterexample :
    (PyVal.dictGet [("utterances", PyVal.vlist [PyVal.vdict
      [("start_time", PyVal.vint 740)]])] "utterances").isSome = true ∧
    (srt_utils.doubao_to_srt [("utterances", PyVal.vlist [PyVal.vdict
      [("start_time", PyVal.vint 740)]])]).isOk = false :=
  ⟨rfl, rfl⟩

namespace srt_utils

theorem utterFields_inv (u : PyVal) (st en : Int) (t : PyVal)
    (h : utterFields u = some (st, en, t)) :
    pyGetItem u "start_time" = .ok (.vint st) ∧
    pyGetItem u "end_time" = .ok (.vint en) ∧
    pyGetItem u "text" = .ok t := by
  cases u with
  | vint n => simp [utterFields] at h
  | vfloat q => simp [utterFields] at h
  | vstr s => simp [utterFields] at h
  | vlist l => simp [utterFields] at h
  | vdict du =>
    rw [utterFields] at h
    rcases h1 : (PyVal.dictGet du "start_time").bind PyVal.asInt with _ | st'
    · rw [h1] at h; simp at h
    rcases h2 : (PyVal.dictGet du "end_time").bind PyVal.asInt with _ | en'
    · rw [h1, h2] at h; simp at h
    rcases h3 : PyVal.dictGet du "text" with _ | t'
    · rw [h1, h2, h3] at h; simp at h
    rw [h1, h2, h3] at h
    simp only [Option.some.injEq, Prod.mk.injEq] at h
    obtain ⟨hst, hen, ht⟩ := h
    subst hst; subst hen; subst ht
    obtain ⟨w1, hw1, hww1⟩ := Option.bind_eq_some.mp h1
    obtain ⟨w2, hw2, hww2⟩ := Option.bind_eq_some.mp h2
    cases w1 with
    | vint n1 =>
      cases w2 with
      | vint n2 =>
        simp only [PyVal.asInt, Option.some.injEq] at hww1 hww2
        subst hww1; subst hww2
        refine ⟨?_, ?_, ?_⟩
        · rw [pyGetItem, hw1]
        · rw [pyGetItem, hw2]
        · rw [pyGetItem, h3]
      | vfloat q => simp [PyVal.asInt] at hww2
      | vstr s => simp [PyVal.asInt] at hww2
      | vlist l => simp [PyVal.asInt] at hww2
      | vdict dd => simp [PyVal.asInt] at hww2
    | vfloat q => simp [PyVal.asInt] at hww1
    | vstr s => simp [PyVal.asInt] at hww1
    | vlist l => simp [PyVal.asInt] at hww1
    | vdict dd => simp [PyVal.asInt] at hww1

theorem utterancesToSegments_eq (us : List PyVal) :
    ∀ (i : ℤ) (fs : List (Int × Int × PyVal)),
      us.mapM utterFields = some fs →
      utterancesToSegments i us = .ok (specSegs i fs) := by
  induction us with
  | nil =>
    intro i fs h
    simp only [List.mapM_nil, pure, Option.some.injEq] at h
    subst h
    rfl
  | cons u rest ih =>
    intro i fs h
    rw [List.mapM_cons] at h
    rcases hu : utterFields u with _ | tr
    · rw [hu] at h; simp at h
    rcases hrest : rest.mapM utterFields with _ | fs'
    · rw [hu, hrest] at h; simp [pure] at h
    rw [hu, hrest] at h
    simp only [Option.bind_eq_bind, Option.some_bind, pure, Option.some.injEq] at h
    subst h
    obtain ⟨st, en, t⟩ := tr
    obtain ⟨h1, h2, h3⟩ := utterFields_inv u st en t hu
    rw [utterancesToSegments, h1, except_bind_ok]
    simp only [PyVal.asInt]
    rw [except_bind_ok, h2, except_bind_ok]
    simp only [PyVal.asInt]
    rw [except_bind_ok, h3, except_bind_ok, ih (i + 1) fs' hrest, except_bind_ok]
    rfl

end srt_utils

open srt_utils in
/-- C10 (amended): `doubao_to_srt` returns the empty string when the input
dict has no `utterances` key; when `utterances` is a list of dicts each
carrying integer `start_time` and `end_time` and a `text` value, it returns
one SRT block per utterance, in input order, indexed consecutively from 1,
with each block's times taken from that utterance's fields; a malformed
utterance makes the conversion raise instead. -/
theorem doubao_to_srt_spec (d : List (String × PyVal)) :
    (PyVal.dictGet d "utterances" = none → doubao_to_srt d = .ok "") ∧
    (∀ us fs, PyVal.dictGet d "utterances" = some (.vlist us) →
      us.mapM utterFields = some fs →
      doubao_to_srt d = .ok (String.intercalate "\n" ((specSegs 1 fs).map to_srt))) := by
  constructor
  · intro h
    rw [doubao_to_srt, h]
  · intro us fs hget hfs
    have hiter : pyIter (PyVal.vlist us) = .ok us := rfl
    simp only [doubao_to_srt, hget, hiter, except_bind_ok,
      utterancesToSegments_eq us 1 fs hfs]

open srt_utils in
/-- Witness for `doubao_to_srt_spec` at a concrete well-formed payload. -/
theorem doubao_to_srt_spec_witness :
    doubao_to_srt [("utterances", PyVal.vlist [PyVal.vdict [("text", PyVal.vstr "hi"),
      ("start_time", PyVal.vint 740), ("end_time", PyVal.vint 1640)]])] =
      .ok (String.intercalate "\n"
        ((specSegs 1 [(740, 1640, PyVal.vstr "hi")]).map to_srt)) :=
  (doubao_to_srt_spec [("utterances", PyVal.vlist [PyVal.vdict [("text", PyVal.vstr "hi"),
    ("start_time", PyVal.vint 740), ("end_time", PyVal.vint 1640)]])]).2
    [PyVal.vdict [("text", PyVal.vstr "hi"), ("start_time", PyVal.vint 740),
      ("end_time", PyVal.vint 1640)]]
    [(740, 1640, PyVal.vstr "hi")] rfl rfl
